import Mathlib

/-!
# Verification of the Sarthi heatmap intensity-aggregation engine

Shallow embedding of `src/frontend/js/heatmap.js`: the intensity scorer
(`pointToHeatEntry`), the grid aggregator (`aggregateByGrid`), the CSV export
(`pointsToCSV`), the unaggregated heat-array builder
(`buildHeatArrayFromRows`), the fetch/refresh state transition
(`fetchAndRender`) and the `moveend` debounce scheduler.

Modelling conventions:
* A finite JavaScript number is modelled as a rational (`ℚ`); intensity
  arithmetic, which involves `Math.log10`, is carried out over `ℝ`.
* A field value whose `Number(...)` conversion is not a finite number
  (`undefined` after the whole alias chain, `NaN`, `±Infinity`, or a
  non-numeric string such as `"x"`) is modelled by `JVal.nonnum`; an absent
  (`undefined`/`null`) field is `Option.none`.
* The JavaScript `Map` used by `aggregateByGrid` is modelled as an
  association list in insertion order, which is exactly the `Map` iteration
  order; `Map.set` on an existing key keeps its position, a new key is
  appended at the end.
* DOM side effects (feedback text, layers, markers) are elided; only the
  data-flow visible to the claims (state, emitted arrays, errors) is kept.
-/

namespace Sarthi

/-- A JavaScript field value after the numeric conversions the heatmap module
applies: either a finite number (as an exact rational) or a value whose
`Number(...)` conversion is not finite (`NaN`, `±Infinity`, a non-numeric
string such as `"x"`). -/
inductive JVal where
  | num (q : ℚ)
  | nonnum
  deriving DecidableEq, Repr

/-- A backend row as consumed by `heatmap.js`: every alias field the code
reads (`lat`/`latitude`/`lat_deg`, `lng`/`longitude`/`lon`/`lng_deg`,
`samples`/`count`, `confidence`/`confidence_numeric`).  `none` models an
absent (`undefined`/`null`) field.  The purely numeric fields (`score`,
`samples`, `count`, `confidence`, `confidence_numeric`) are modelled as
optional rationals, matching the spec's data model (optional float64). -/
structure Row where
  lat : Option JVal := none
  latitude : Option JVal := none
  lat_deg : Option JVal := none
  lng : Option JVal := none
  longitude : Option JVal := none
  lon : Option JVal := none
  lng_deg : Option JVal := none
  score : Option ℚ := none
  samples : Option ℚ := none
  count : Option ℚ := none
  confidence : Option ℚ := none
  confidence_numeric : Option ℚ := none
  deriving DecidableEq, Repr

/-- `p.lat ?? p.latitude ?? p.lat_deg` (line 126). -/
def resolveLat (r : Row) : Option JVal :=
  r.lat <|> r.latitude <|> r.lat_deg

/-- `p.lng ?? p.longitude ?? p.lon ?? p.lng_deg` (line 127). -/
def resolveLng (r : Row) : Option JVal :=
  r.lng <|> r.longitude <|> r.lon <|> r.lng_deg

/-- `Number(x)` followed by the `Number.isFinite` test: yields the finite
numeric value, or `none` when the conversion is not finite (in particular
`Number(undefined) = NaN`). -/
def finNum : Option JVal → Option ℚ
  | some (JVal.num q) => some q
  | _ => none

/-- The latitude actually used by the module, when finite. -/
def latOf (r : Row) : Option ℚ := finNum (resolveLat r)

/-- The longitude actually used by the module, when finite. -/
def lngOf (r : Row) : Option ℚ := finNum (resolveLng r)

/-- `VISUAL_AMPLIFIER = 2.0` (line 19). -/
def VISUAL_AMPLIFIER : ℝ := 2

/-- `MAX_INTENSITY_CLAMP = 4.0` (line 20). -/
def MAX_INTENSITY_CLAMP : ℝ := 4

/-- `AGG_CELL_SIZE_DEG = 0.0015` (line 16). -/
def AGG_CELL_SIZE_DEG : ℚ := 0.0015

/-- `USE_AGGREGATION = false` (line 15). -/
def USE_AGGREGATION : Bool := false

/-- Lines 131-132: `rawScore === null ? 0.75 : Math.max(0, Math.min(1, 1.0 - rawScore))`.
The score is `null` when the field is `undefined` or `null`. -/
noncomputable def baseIntensity (r : Row) : ℝ :=
  match r.score with
  | none => 0.75
  | some s => max 0 (min 1 (1 - (s : ℝ)))

/-- Line 135: `Math.max(1, Number(p.samples ?? p.count ?? 1))`. -/
def effSamples (r : Row) : ℚ :=
  max 1 ((r.samples <|> r.count).getD 1)

/-- Line 136: `Math.min(2.0, 0.45 + Math.log10(samples + 1) * 0.32)`. -/
noncomputable def boost (r : Row) : ℝ :=
  min 2 (0.45 + Real.logb 10 ((effSamples r : ℝ) + 1) * 0.32)

/-- Lines 137-140 of `pointToHeatEntry`: the clamped intensity
`Math.max(0.01, Math.min(MAX_INTENSITY_CLAMP, intensity * VISUAL_AMPLIFIER))`
with `intensity = base * boost`. -/
noncomputable def intensity (r : Row) : ℝ :=
  max 0.01 (min MAX_INTENSITY_CLAMP (baseIntensity r * boost r * VISUAL_AMPLIFIER))

/-- The record returned by `pointToHeatEntry` (line 142), with its `meta`
fields inlined. -/
structure HeatEntry where
  lat : ℚ
  lng : ℚ
  intensity : ℝ
  metaScore : Option ℚ
  metaSamples : ℚ
  metaConfidence : Option ℚ

/-- Lines 124-143: `pointToHeatEntry`.  Returns `none` (JS `null`) when the
resolved latitude or longitude is not a finite number. -/
noncomputable def pointToHeatEntry (r : Row) : Option HeatEntry :=
  match latOf r, lngOf r with
  | some lat, some lng =>
      some ⟨lat, lng, intensity r, r.score, effSamples r,
            r.confidence <|> r.confidence_numeric⟩
  | _, _ => none

/-- Lines 155-160: the per-point intensity computed inside `aggregateByGrid`.
The code duplicates the scorer's formula textually (including the final
clamp at line 160 — despite the comment at line 154). -/
noncomputable def aggPointIntensity (r : Row) : ℝ :=
  let rawBase : ℝ :=
    match r.score with
    | none => 0.75
    | some s => max 0 (min 1 (1 - (s : ℝ)))
  let samples : ℚ := max 1 ((r.samples <|> r.count).getD 1)
  let b : ℝ := min 2 (0.45 + Real.logb 10 ((samples : ℝ) + 1) * 0.32)
  max 0.01 (min MAX_INTENSITY_CLAMP (rawBase * b * VISUAL_AMPLIFIER))

/-- Line 162-163 rounding `Math.round(x / cellSize) * cellSize`, then the
six-decimal formatting `toFixed(6)` used to build the string key (line 164),
modelled as rounding to six decimal places.  `Math.round x = ⌊x + 1/2⌋`,
which is exactly Mathlib's `round` on `ℚ`. -/
def round6 (q : ℚ) : ℚ :=
  ((round (q * 1000000) : ℤ) : ℚ) / 1000000

/-- The grid key of a sample at `(lat, lng)` for cell size `cs`
(lines 162-164). -/
def cellKey (cs lat lng : ℚ) : ℚ × ℚ :=
  (round6 (((round (lat / cs) : ℤ) : ℚ) * cs),
   round6 (((round (lng / cs) : ℤ) : ℚ) * cs))

/-- The grid key of a row when it is accepted (finite lat/lng), `none` when
the row is skipped by the `continue` at line 152. -/
def acceptedKey (cs : ℚ) (r : Row) : Option (ℚ × ℚ) :=
  match latOf r, lngOf r with
  | some lat, some lng => some (cellKey cs lat lng)
  | _, _ => none

/-- The running cell accumulator `{ latSum, lngSum, weightSum, count }`
(line 165). -/
structure CellAcc where
  latSum : ℝ
  lngSum : ℝ
  weightSum : ℝ
  count : ℕ

/-- `{ latSum: 0, lngSum: 0, weightSum: 0, count: 0 }` (line 165). -/
def zeroCell : CellAcc := ⟨0, 0, 0, 0⟩

/-- Componentwise accumulation of two cell accumulators. -/
def addCell (a b : CellAcc) : CellAcc :=
  ⟨a.latSum + b.latSum, a.lngSum + b.lngSum, a.weightSum + b.weightSum,
   a.count + b.count⟩

/-- The contribution of one accepted row to its cell (lines 166-169):
`latSum += lat * pointIntensity; lngSum += lng * pointIntensity;
weightSum += pointIntensity; count += 1`.  A rejected row contributes
nothing. -/
noncomputable def rowContrib (r : Row) : CellAcc :=
  match latOf r, lngOf r with
  | some lat, some lng =>
      ⟨(lat : ℝ) * aggPointIntensity r, (lng : ℝ) * aggPointIntensity r,
       aggPointIntensity r, 1⟩
  | _, _ => zeroCell

/-- `cells.set(key, cur)` where `cur = cells.get(key) || zero` updated with
one row's contribution: a JS `Map` keeps an existing key at its position and
appends a new key at the end. -/
noncomputable def updateCell :
    List ((ℚ × ℚ) × CellAcc) → (ℚ × ℚ) → CellAcc → List ((ℚ × ℚ) × CellAcc)
  | [], k, c => [(k, c)]
  | (k0, c0) :: rest, k, c =>
      if k0 = k then (k0, addCell c0 c) :: rest
      else (k0, c0) :: updateCell rest k c

/-- One iteration of the `for (const r of rows)` loop (lines 149-171). -/
noncomputable def insertRow (cs : ℚ) (cells : List ((ℚ × ℚ) × CellAcc))
    (r : Row) : List ((ℚ × ℚ) × CellAcc) :=
  match acceptedKey cs r with
  | some k => updateCell cells k (rowContrib r)
  | none => cells

/-- The aggregated record `{ lat, lng, intensity, count }` pushed at
line 178. -/
structure AggCell where
  lat : ℝ
  lng : ℝ
  intensity : ℝ
  count : ℕ

/-- Lines 175-178: emit one cell — centroid `latSum/weightSum`,
`lngSum/weightSum` and intensity `Math.min(MAX_INTENSITY_CLAMP, weightSum)`. -/
noncomputable def emitCell (v : CellAcc) : AggCell :=
  ⟨v.latSum / v.weightSum, v.lngSum / v.weightSum,
   min MAX_INTENSITY_CLAMP v.weightSum, v.count⟩

/-- Lines 147-181: `aggregateByGrid`. -/
noncomputable def aggregateByGrid (rows : List Row) (cs : ℚ) : List AggCell :=
  ((rows.foldl (insertRow cs) []).map fun kv => emitCell kv.2)

/-- The rows of `rows` that land in cell `k` (specification helper: the
"members" of a cell). -/
def membersOf (cs : ℚ) (rows : List Row) (k : ℚ × ℚ) : List Row :=
  rows.filter fun r => acceptedKey cs r = some k

/-- The total accumulator of cell `k` over a row list (specification helper:
the per-key sums of the claims — componentwise sums of the members'
contributions, and the member count). -/
noncomputable def cellSums (cs : ℚ) (rows : List Row) (k : ℚ × ℚ) : CellAcc :=
  ⟨((membersOf cs rows k).map fun r => (rowContrib r).latSum).sum,
   ((membersOf cs rows k).map fun r => (rowContrib r).lngSum).sum,
   ((membersOf cs rows k).map fun r => (rowContrib r).weightSum).sum,
   (membersOf cs rows k).length⟩

/-- First-occurrence deduplication (with an accumulator of already-seen
elements): keeps the first occurrence of every element, in order — the key
iteration order of a JS `Map` filled left to right. -/
def firstDedupAux {α : Type} [DecidableEq α] (seen : List α) : List α → List α
  | [] => []
  | a :: l =>
      if a ∈ seen then firstDedupAux seen l
      else a :: firstDedupAux (a :: seen) l

/-- First-occurrence deduplication: keeps the first occurrence of every
element, in order. -/
def firstDedup {α : Type} [DecidableEq α] (l : List α) : List α :=
  firstDedupAux [] l

/-- The keys of the cells `aggregateByGrid` produces, in emission order. -/
def gridKeys (cs : ℚ) (rows : List Row) : List (ℚ × ℚ) :=
  firstDedup (rows.filterMap (acceptedKey cs))

/-- Lines 227-242: `buildHeatArrayFromRows`.  `none` models a `null`/
`undefined` `rows` argument (the `!rows` guard); an empty list hits the
`!rows.length` guard.  `USE_AGGREGATION` is the constant `false` of
line 15, so the unaggregated branch is the live one. -/
noncomputable def buildHeatArrayFromRows : Option (List Row) → List (ℝ × ℝ × ℝ)
  | none => []
  | some rows =>
      if rows.isEmpty then []
      else if USE_AGGREGATION then
        (aggregateByGrid rows AGG_CELL_SIZE_DEG).map fun a =>
          (a.lat, a.lng, a.intensity)
      else
        rows.filterMap fun r =>
          (pointToHeatEntry r).map fun p => ((p.lat : ℝ), (p.lng : ℝ), p.intensity)

/-- The `[lat, lng, intensity]` triple of one accepted row on the
unaggregated path (lines 236-238). -/
noncomputable def heatTriple (r : Row) : Option (ℝ × ℝ × ℝ) :=
  (pointToHeatEntry r).map fun p => ((p.lat : ℝ), (p.lng : ℝ), p.intensity)

/-- The shape of a successful `/heatmap_data` response (line 256):
either an array, or an object carrying the rows under `points` or `data`;
`none` models an absent (or nullish) key. -/
inductive FetchData where
  | arr (pts : List Row)
  | obj (points : Option (List Row)) (dataField : Option (List Row))

/-- Line 256: `Array.isArray(data) ? data : (data.points || data.data || [])`.
A present array is truthy in JS even when empty, so `<|>` (first present
wins) is the faithful model of `||` here. -/
def extractPts : FetchData → List Row
  | FetchData.arr pts => pts
  | FetchData.obj p d => (p <|> d).getD []

/-- Lines 244-333: the state- and result-relevant core of one
`fetchAndRender` cycle.  The first component is the value of
`lastFetchedPoints` after the cycle, the second the value returned to the
caller (the thrown error on the failure path of lines 328-332, or the
fetched points together with the heat array built at line 260).
The network call itself is the `res` argument: `Except.error` models a
rejected `api.get`, in which case the `try` body is abandoned before the
assignment `lastFetchedPoints = pts` at line 257. -/
noncomputable def fetchAndRender (prev : List Row)
    (res : Except String FetchData) :
    List Row × Except String (List Row × List (ℝ × ℝ × ℝ)) :=
  match res with
  | Except.error e => (prev, Except.error e)
  | Except.ok d =>
      let pts := extractPts d
      (pts, Except.ok (pts, buildHeatArrayFromRows (some pts)))

/-- The debounce interval `300` (line 376), in milliseconds. -/
def DEBOUNCE_MS : ℚ := 300

/-- The scheduler state: the deadline of the pending `setTimeout` (if any)
and the number of fetches issued so far. -/
structure SchedState where
  pending : Option ℚ
  fired : ℕ
  deriving DecidableEq, Repr

/-- One `moveend` event at time `t` (lines 374-377) under single-threaded
timer semantics: a pending timer whose deadline has passed has already fired
(one fetch) before this handler runs; then `clearTimeout` discards any
still-pending timer and `setTimeout` arms a fresh one for `t + delay`. -/
def onMoveEnd (delay t : ℚ) (s : SchedState) : SchedState :=
  let fired :=
    match s.pending with
    | some d => if d ≤ t then s.fired + 1 else s.fired
    | none => s.fired
  ⟨some (t + delay), fired⟩

/-- The number of fetches issued for a burst of `moveend` events at the given
times: run every handler in order, then let the final pending timer (if any)
fire — nothing cancels it once events stop. -/
def fetchCount (delay : ℚ) (times : List ℚ) : ℕ :=
  let final := times.foldl (fun s t => onMoveEnd delay t s) ⟨none, 0⟩
  final.fired + (match final.pending with | some _ => 1 | none => 0)

/-! ## CSV export and its round trip

`pointsToCSV` (lines 42-49) joins each row's fields with commas and the
resulting lines (header first) with newlines.  Text is modelled as
`List Char`.  JavaScript's
number-to-string conversion is a full round trip on finite numbers by
design; it is modelled here by an exact rational codec (`num/den` in
decimal digits), which shares that property and contains neither separator
character. -/

/-- `r.join(sep)` on a list of already-rendered fields (lines 47). -/
def joinSep (sep : Char) : List (List Char) → List Char
  | [] => []
  | [g] => g
  | g :: g2 :: gs => g ++ sep :: joinSep sep (g2 :: gs)

/-- Modelled from the spec: the repository contains no CSV parser, so the
inverse of `join` — splitting at every occurrence of the separator — is
modelled directly.  Always returns at least one (possibly empty) group. -/
def splitSep (sep : Char) : List Char → List (List Char)
  | [] => [[]]
  | c :: rest =>
      match splitSep sep rest with
      | [] => [[c]]
      | g :: gs => if c = sep then [] :: g :: gs else (c :: g) :: gs

/-- Decimal digits of a natural number, most significant first; `0` renders
as `"0"` as in JavaScript. -/
def natChars (n : ℕ) : List Char :=
  if n = 0 then ['0'] else ((Nat.digits 10 n).map Nat.digitChar).reverse

/-- Modelled from the spec: the value of one decimal digit character. -/
def charToDigit (c : Char) : Option ℕ :=
  if '0' ≤ c ∧ c ≤ '9' then some (c.toNat - '0'.toNat) else none

/-- Modelled from the spec: parse a nonempty all-digit string, most
significant digit first. -/
def digitStep (acc : Option ℕ) (ch : Char) : Option ℕ :=
  acc.bind fun a => (charToDigit ch).map fun d => a * 10 + d

def charsToNat : List Char → Option ℕ
  | [] => none
  | c :: cs => (c :: cs).foldl digitStep (some 0)

/-- Signed decimal rendering of an integer. -/
def intChars (i : ℤ) : List Char :=
  if i < 0 then '-' :: natChars i.natAbs else natChars i.natAbs

/-- Modelled from the spec: parse an optional sign followed by digits. -/
def parseInt : List Char → Option ℤ
  | [] => none
  | c :: rest =>
      if c = '-' then (charsToNat rest).map fun n => -(n : ℤ)
      else (charsToNat (c :: rest)).map fun n => (n : ℤ)

/-- Exact, comma- and newline-free rendering of a finite JS number as the
rational `num/den` — the stand-in for JavaScript's round-tripping
number-to-string conversion. -/
def ratChars (q : ℚ) : List Char :=
  intChars q.num ++ '/' :: natChars q.den

/-- Modelled from the spec: inverse of `ratChars`. -/
def parseRat (l : List Char) : Option ℚ :=
  match splitSep '/' l with
  | [n, d] => (parseInt n).bind fun ni => (charsToNat d).map fun dn => (ni : ℚ) / (dn : ℚ)
  | _ => none

/-- One CSV field of an optional number: `(x ?? '')` (line 45) — a missing
value renders as the empty string. -/
def fieldChars : Option ℚ → List Char
  | none => []
  | some q => ratChars q

/-- One CSV field of a raw `lat`/`lng` slot: `Array.prototype.join` renders
`undefined` and `null` as the empty string.  A present non-numeric value is
outside the numeric model and rendered as an opaque marker (the round-trip
theorem assumes numeric-or-missing fields). -/
def jvalChars : Option JVal → List Char
  | none => []
  | some (JVal.num q) => ratChars q
  | some JVal.nonnum => ['?']

/-- The header `['lat', 'lng', 'score', 'samples', 'confidence']` joined
with commas (lines 43, 47). -/
def headerChars : List Char :=
  joinSep ',' [['l','a','t'], ['l','n','g'], ['s','c','o','r','e'],
               ['s','a','m','p','l','e','s'],
               ['c','o','n','f','i','d','e','n','c','e']]

/-- Line 44-45: the five rendered fields of one point, in source order. -/
def rowChars (p : Row) : List Char :=
  joinSep ',' [jvalChars p.lat, jvalChars p.lng, fieldChars p.score,
               fieldChars p.samples, fieldChars p.confidence]

/-- Lines 42-49: `pointsToCSV`. -/
def pointsToCSV (pts : List Row) : List Char :=
  joinSep '\n' (headerChars :: pts.map rowChars)

/-- The `(lat, lng, score, samples, confidence)` value tuple of one held
point, `none` standing for a missing value. -/
abbrev CSVTuple := Option ℚ × Option ℚ × Option ℚ × Option ℚ × Option ℚ

/-- The tuple a row exports: the raw `lat`/`lng` fields (no alias
resolution in `pointsToCSV`) and the three optional numeric fields. -/
def csvTuple (p : Row) : CSVTuple :=
  (finNum p.lat, finNum p.lng, p.score, p.samples, p.confidence)

/-- Modelled from the spec: parse one optional-number CSV field, the empty
string denoting a missing value. -/
def parseField : List Char → Option (Option ℚ)
  | [] => some none
  | c :: cs => (parseRat (c :: cs)).map some

/-- Modelled from the spec: parse one CSV data row into its five fields. -/
def parseRow (l : List Char) : Option CSVTuple :=
  match splitSep ',' l with
  | [a, b, c, d, e] =>
      (parseField a).bind fun la =>
      (parseField b).bind fun ln =>
      (parseField c).bind fun sc =>
      (parseField d).bind fun sa =>
      (parseField e).map fun co => (la, ln, sc, sa, co)
  | _ => none

/-- Modelled from the spec: the repository contains no CSV parser; this is
the inverse of the export format — a `lat,lng,score,samples,confidence`
header line followed by one row per point. -/
def parseCSV (l : List Char) : Option (List CSVTuple) :=
  match splitSep '\n' l with
  | h :: rest => if h = headerChars then rest.mapM parseRow else none
  | [] => none

/-- A held point whose exported fields are all numeric-or-missing (the
spec's RawSample data model: float64 or absent). -/
def numericRow (p : Row) : Prop :=
  p.lat ≠ some JVal.nonnum ∧ p.lng ≠ some JVal.nonnum

instance (p : Row) : Decidable (numericRow p) := by
  unfold numericRow; infer_instance

/-! ## Concrete sample rows (used by witnesses) -/

/-- A well-formed sample with no score and no sample count:
`{lat: 13, lng: 77}`. -/
def rowNullScore : Row :=
  ⟨some (JVal.num 13), none, none, some (JVal.num 77),
   none, none, none, none, none, none, none, none⟩

/-- A well-formed sample `{lat: 13, lng: 77, score: 0.5, samples: 3, confidence: 1}`. -/
def rowA : Row :=
  ⟨some (JVal.num 13), none, none, some (JVal.num 77),
   none, none, none, some (1/2), some 3, none, some 1, none⟩

/-- A well-formed sample `{lat: 13.0002, lng: 77.0001, score: 0.9}` —
same unit grid cell as `rowA`. -/
def rowB : Row :=
  ⟨some (JVal.num (130002/10000)), none, none, some (JVal.num (770001/10000)),
   none, none, none, some (9/10), none, none, none, none⟩

/-- The spec's malformed sample `{lat: "x", lng: 12.9}`: the latitude does
not convert to a finite number. -/
def rowBad : Row :=
  ⟨some JVal.nonnum, none, none, some (JVal.num (129/10)),
   none, none, none, none, none, none, none, none⟩

/-- A held point for the CSV witness:
`{lat: 12.9, lng: 77, samples: 3, confidence: -2}` (score missing). -/
def rowCSV : Row :=
  ⟨some (JVal.num (129/10)), none, none, some (JVal.num 77),
   none, none, none, none, some 3, none, some (-2), none⟩

/-!
# Theorems
-/

/-- The per-point intensity computed inside `aggregateByGrid`
(lines 155-160) is definitionally the scorer's clamped intensity
(lines 131-140): the code duplicates the formula, final clamp included. -/
theorem aggPointIntensity_eq (r : Row) : aggPointIntensity r = intensity r := rfl

/-- The scorer's clamp bounds, unconditionally. -/
theorem intensity_bounds (r : Row) : 0.01 ≤ intensity r ∧ intensity r ≤ 4 := by
  unfold intensity MAX_INTENSITY_CLAMP
  exact ⟨le_max_left _ _, max_le (by norm_num) (min_le_left _ _)⟩

/-- `0 < log10 2 < 1`. -/
theorem logb_ten_two_pos : 0 < Real.logb 10 2 :=
  Real.logb_pos (by norm_num) (by norm_num)

theorem logb_ten_two_lt_one : Real.logb 10 2 < 1 := by
  have h := Real.logb_lt_logb (b := 10) (by norm_num) (x := 2) (y := 10)
    (by norm_num) (by norm_num)
  rwa [Real.logb_self_eq_one (by norm_num)] at h

/-- For a sample with no score and effective sample count 1, the scorer's
intensity is exactly `0.675 + 0.48 * log10 2` (no clamping occurs), which is
strictly greater than `0.675`. -/
theorem intensity_unscored_single (r : Row) (h1 : r.score = none)
    (h2 : effSamples r = 1) :
    intensity r = 0.675 + 0.48 * Real.logb 10 2 ∧ 0.675 < intensity r := by
  have hL0 := logb_ten_two_pos
  have hL1 := logb_ten_two_lt_one
  have hbase : baseIntensity r = 0.75 := by unfold baseIntensity; rw [h1]
  have hboost : boost r = 0.45 + Real.logb 10 2 * 0.32 := by
    unfold boost
    rw [h2, (by norm_num : ((1 : ℚ) : ℝ) + 1 = 2),
      min_eq_right (by linarith)]
  unfold intensity VISUAL_AMPLIFIER MAX_INTENSITY_CLAMP
  rw [hbase, hboost]
  have hval : (0.75 : ℝ) * (0.45 + Real.logb 10 2 * 0.32) * 2
      = 0.675 + 0.48 * Real.logb 10 2 := by ring
  rw [hval, min_eq_right (by nlinarith), max_eq_right (by nlinarith)]
  exact ⟨rfl, by nlinarith⟩

/-- C1 (counterexample): for the sample `{lat: 13, lng: 77}` with `score`
absent and `samples` absent (effective count 1), the intensity the scorer
emits is NOT `0.675`: the boost at one sample is
`0.45 + log10(2) * 0.32 ≈ 0.546`, not `0.45`, because
`log10(samples + 1) = log10 2 ≠ 0`. -/
theorem c1_counterexample :
    (pointToHeatEntry rowNullScore).map HeatEntry.intensity ≠ some (0.675 : ℝ) := by
  have h := intensity_unscored_single rowNullScore rfl (by decide)
  have hmap : (pointToHeatEntry rowNullScore).map HeatEntry.intensity
      = some (intensity rowNullScore) := rfl
  rw [hmap]
  intro hc
  have : intensity rowNullScore = 0.675 := Option.some_injective _ hc
  rw [this] at h
  exact lt_irrefl _ h.2

/-- C1 (amended): for every sample whose score is null/absent and whose
effective sample count is 1 (count 1 or absent), the intensity produced by
the scorer equals
`clamp(0.75 * (0.45 + log10(2) * 0.32) * 2.0, 0.01, 4.0)
 = 0.675 + 0.48 * log10 2 ≈ 0.8195`, which is strictly greater than the
claimed `0.675`. -/
theorem c1_amended_intensity (r : Row) (h1 : r.score = none)
    (h2 : effSamples r = 1) (e : HeatEntry) (he : pointToHeatEntry r = some e) :
    e.intensity = 0.675 + 0.48 * Real.logb 10 2 ∧ 0.675 < e.intensity := by
  have hei : e.intensity = intensity r := by
    unfold pointToHeatEntry at he
    rcases hlat : latOf r with _ | lat <;> rw [hlat] at he
    · exact absurd he (by simp)
    rcases hlng : lngOf r with _ | lng <;> rw [hlng] at he
    · exact absurd he (by simp)
    cases he
    rfl
  rw [hei]
  exact intensity_unscored_single r h1 h2

/-- Witness for C1's amended theorem at the concrete sample
`{lat: 13, lng: 77}`. -/
theorem c1_witness :
    rowNullScore.score = none ∧ effSamples rowNullScore = 1 ∧
      0.675 < intensity rowNullScore :=
  ⟨rfl, by decide,
    (c1_amended_intensity rowNullScore rfl (by decide)
      ⟨13, 77, intensity rowNullScore, none, effSamples rowNullScore, none⟩ rfl).2⟩

/-- C6: for every accepted sample (finite resolved latitude and longitude),
the per-point intensity `aggregateByGrid` accumulates into the sample's grid
cell (lines 155-160) is exactly the intensity the scorer `pointToHeatEntry`
would emit for that sample (lines 131-140): same score inversion, same
boost, same amplifier, and the same `[0.01, 4.0]` clamp. -/
theorem c6_agg_intensity_refines_scorer (r : Row)
    (h1 : (latOf r).isSome = true) (h2 : (lngOf r).isSome = true) :
    aggPointIntensity r = intensity r :=
  aggPointIntensity_eq r

/-- Witness for C6 at the accepted sample `rowA`. -/
theorem c6_witness : aggPointIntensity rowA = intensity rowA :=
  c6_agg_intensity_refines_scorer rowA (by decide) (by decide)

/-- C7: one `fetchAndRender` cycle (lines 244-333) is atomic in
`lastFetchedPoints`: when the fetch fails, the held point set is exactly the
previous one and the error is surfaced to the caller (re-thrown at
line 331); the point set is replaced (line 257) only on the success path,
by the points extracted from the response. -/
theorem c7_fetch_failure_atomic :
    (∀ prev e, fetchAndRender prev (Except.error e) = (prev, Except.error e)) ∧
    (∀ prev d, (fetchAndRender prev (Except.ok d)).1 = extractPts d ∧
      (fetchAndRender prev (Except.ok d)).2
        = Except.ok (extractPts d, buildHeatArrayFromRows (some (extractPts d)))) :=
  ⟨fun _ _ => rfl, fun _ _ => ⟨rfl, rfl⟩⟩

/-- C10: in unaggregated mode (`USE_AGGREGATION = false`),
`buildHeatArrayFromRows` emits exactly one `[lat, lng, intensity]` triple
per accepted row, in input order (`filterMap` of the per-row triple), its
length is the number of accepted rows, and a missing input yields `[]`. -/
theorem c10_unaggregated_one_triple_per_row :
    buildHeatArrayFromRows none = [] ∧
    (∀ rows, buildHeatArrayFromRows (some rows) = rows.filterMap heatTriple) ∧
    (∀ rows, (buildHeatArrayFromRows (some rows)).length
      = rows.countP fun r => (pointToHeatEntry r).isSome) := by
  refine ⟨rfl, ?_, ?_⟩ <;> intro rows
  · cases rows with
    | nil => rfl
    | cons a l => rfl
  · have hlen : ∀ m : List Row, (m.filterMap heatTriple).length
        = m.countP fun r => (pointToHeatEntry r).isSome := by
      intro m
      induction m with
      | nil => rfl
      | cons b m ih =>
          rw [List.countP_cons, List.filterMap_cons]
          cases hb : pointToHeatEntry b with
          | none =>
              have hbt : heatTriple b = none := by unfold heatTriple; rw [hb]; rfl
              simp [hbt, hb, ih]
          | some p =>
              have hbt : heatTriple b
                  = some ((p.lat : ℝ), (p.lng : ℝ), p.intensity) := by
                unfold heatTriple; rw [hb]; rfl
              simp [hbt, hb, ih]
    cases rows with
    | nil => rfl
    | cons a l =>
        have hb : buildHeatArrayFromRows (some (a :: l))
            = (a :: l).filterMap heatTriple := rfl
        rw [hb, hlen]

/-! ## Aggregation: characterizing the fold over the JS `Map` -/

theorem mem_firstDedupAux {α : Type} [DecidableEq α] (seen : List α)
    (l : List α) (x : α) :
    x ∈ firstDedupAux seen l ↔ x ∈ l ∧ x ∉ seen := by
  induction l generalizing seen with
  | nil => simp [firstDedupAux]
  | cons a l ih =>
      unfold firstDedupAux
      by_cases ha : a ∈ seen
      · rw [if_pos ha, ih]
        constructor
        · exact fun h => ⟨List.mem_cons_of_mem a h.1, h.2⟩
        · rintro ⟨h1, h2⟩
          rcases List.mem_cons.mp h1 with rfl | h1
          · exact absurd ha h2
          · exact ⟨h1, h2⟩
      · rw [if_neg ha]
        constructor
        · intro h
          rcases List.mem_cons.mp h with rfl | h
          · exact ⟨List.mem_cons_self x l, ha⟩
          · rcases (ih (a :: seen)).mp h with ⟨h1, h2⟩
            exact ⟨List.mem_cons_of_mem a h1,
              fun hs => h2 (List.mem_cons_of_mem a hs)⟩
        · rintro ⟨h1, h2⟩
          rcases List.mem_cons.mp h1 with rfl | h1
          · exact List.mem_cons_self x _
          · by_cases hxa : x = a
            · subst hxa; exact List.mem_cons_self x _
            · refine List.mem_cons_of_mem a ((ih (a :: seen)).mpr ⟨h1, ?_⟩)
              intro hs
              rcases List.mem_cons.mp hs with h | h
              · exact hxa h
              · exact h2 h

theorem nodup_firstDedupAux {α : Type} [DecidableEq α] (seen : List α)
    (l : List α) : (firstDedupAux seen l).Nodup := by
  induction l generalizing seen with
  | nil => exact List.nodup_nil
  | cons a l ih =>
      unfold firstDedupAux
      by_cases ha : a ∈ seen
      · rw [if_pos ha]; exact ih seen
      · rw [if_neg ha]
        refine List.nodup_cons.mpr ⟨?_, ih (a :: seen)⟩
        intro hmem
        exact ((mem_firstDedupAux _ _ _).mp hmem).2 (List.mem_cons_self a seen)

theorem mem_firstDedup {α : Type} [DecidableEq α] (l : List α) (x : α) :
    x ∈ firstDedup l ↔ x ∈ l := by
  unfold firstDedup
  rw [mem_firstDedupAux]
  simp

theorem nodup_firstDedup {α : Type} [DecidableEq α] (l : List α) :
    (firstDedup l).Nodup :=
  nodup_firstDedupAux [] l

theorem firstDedupAux_concat {α : Type} [DecidableEq α] (seen : List α)
    (l : List α) (a : α) :
    firstDedupAux seen (l ++ [a])
      = if a ∈ seen ∨ a ∈ l then firstDedupAux seen l
        else firstDedupAux seen l ++ [a] := by
  induction l generalizing seen with
  | nil =>
      by_cases ha : a ∈ seen <;>
        simp [firstDedupAux, ha]
  | cons b l ih =>
      rw [List.cons_append]
      unfold firstDedupAux
      by_cases hb : b ∈ seen
      · rw [if_pos hb, if_pos hb, ih]
        by_cases hmem : a ∈ seen ∨ a ∈ l
        · rw [if_pos hmem, if_pos (by
            rcases hmem with h | h
            · exact Or.inl h
            · exact Or.inr (List.mem_cons_of_mem b h))]
        · rw [if_neg hmem, if_neg (by
            rintro (h | h)
            · exact hmem (Or.inl h)
            rcases List.mem_cons.mp h with rfl | h
            · exact hmem (Or.inl hb)
            · exact hmem (Or.inr h))]
      · rw [if_neg hb, if_neg hb, ih]
        by_cases hmem : a ∈ b :: seen ∨ a ∈ l
        · rw [if_pos hmem, if_pos (by
            rcases hmem with h | h
            · rcases List.mem_cons.mp h with hba | h
              · rw [hba]; exact Or.inr (List.mem_cons_self b l)
              · exact Or.inl h
            · exact Or.inr (List.mem_cons_of_mem b h))]
        · rw [if_neg hmem, if_neg (by
            rintro (h | h)
            · exact hmem (Or.inl (List.mem_cons_of_mem b h))
            rcases List.mem_cons.mp h with hba | h
            · rw [hba] at hmem
              exact hmem (Or.inl (List.mem_cons_self b seen))
            · exact hmem (Or.inr h)), List.cons_append]

theorem firstDedup_concat {α : Type} [DecidableEq α] (l : List α) (a : α) :
    firstDedup (l ++ [a])
      = if a ∈ l then firstDedup l else firstDedup l ++ [a] := by
  unfold firstDedup
  rw [firstDedupAux_concat]
  simp

theorem addCell_zero (a : CellAcc) : addCell a zeroCell = a := by
  simp [addCell, zeroCell]

theorem zero_addCell (a : CellAcc) : addCell zeroCell a = a := by
  simp [addCell, zeroCell]

theorem membersOf_concat (cs : ℚ) (rows : List Row) (r : Row) (k : ℚ × ℚ) :
    membersOf cs (rows ++ [r]) k
      = membersOf cs rows k
        ++ (if acceptedKey cs r = some k then [r] else []) := by
  unfold membersOf
  rw [List.filter_append]
  congr 1
  by_cases h : acceptedKey cs r = some k <;> simp [h]

/-- An accepted row's contribution, componentwise: its raw coordinates
weighted by its point intensity, the point intensity itself, and a member
count of one. -/
theorem rowContrib_of_acceptedKey (cs : ℚ) (k : ℚ × ℚ) (r : Row)
    (h : acceptedKey cs r = some k) :
    ∃ lat lng, latOf r = some lat ∧ lngOf r = some lng ∧
      rowContrib r = ⟨(lat : ℝ) * aggPointIntensity r,
        (lng : ℝ) * aggPointIntensity r, aggPointIntensity r, 1⟩ := by
  unfold acceptedKey at h
  rcases hlat : latOf r with _ | lat <;> rw [hlat] at h
  · exact absurd h (by simp)
  rcases hlng : lngOf r with _ | lng <;> rw [hlng] at h
  · exact absurd h (by simp)
  refine ⟨lat, lng, rfl, rfl, ?_⟩
  unfold rowContrib
  rw [hlat, hlng]

theorem cellSums_concat (cs : ℚ) (rows : List Row) (r : Row) (k : ℚ × ℚ) :
    cellSums cs (rows ++ [r]) k
      = if acceptedKey cs r = some k
        then addCell (cellSums cs rows k) (rowContrib r)
        else cellSums cs rows k := by
  unfold cellSums
  rw [membersOf_concat]
  by_cases h : acceptedKey cs r = some k
  · rcases rowContrib_of_acceptedKey cs k r h with ⟨lat, lng, _, _, hc⟩
    simp [h, addCell, hc]
  · simp [h, addCell]

/-- A key that no row of `rows` maps to has the zero accumulator. -/
theorem cellSums_of_not_mem (cs : ℚ) (rows : List Row) (k : ℚ × ℚ)
    (h : k ∉ rows.filterMap (acceptedKey cs)) :
    cellSums cs rows k = zeroCell := by
  have hm : membersOf cs rows k = [] := by
    rw [List.eq_nil_iff_forall_not_mem]
    intro r hr
    rcases List.mem_filter.mp hr with ⟨hrow, hkey⟩
    exact h (List.mem_filterMap.mpr ⟨r, hrow, by simpa using hkey⟩)
  unfold cellSums
  rw [hm]
  rfl

/-- `Map.set` on a key already present updates it in place. -/
theorem updateCell_map_of_mem (g : (ℚ × ℚ) → CellAcc) (w : CellAcc)
    (ks : List (ℚ × ℚ)) (k0 : ℚ × ℚ) (hnd : ks.Nodup) (hmem : k0 ∈ ks) :
    updateCell (ks.map fun k => (k, g k)) k0 w
      = ks.map fun k => (k, if k = k0 then addCell (g k) w else g k) := by
  induction ks with
  | nil => cases hmem
  | cons a ks ih =>
      rw [List.map_cons, List.map_cons]
      unfold updateCell
      by_cases hak : a = k0
      · rw [if_pos hak, if_pos hak]
        have hknotin : k0 ∉ ks := hak ▸ (List.nodup_cons.mp hnd).1
        congr 1
        apply List.map_congr_left
        intro x hx
        rw [if_neg (fun hxk : x = k0 => hknotin (hxk ▸ hx))]
      · have hk0ks : k0 ∈ ks := by
          rcases List.mem_cons.mp hmem with h | h
          · exact absurd h.symm hak
          · exact h
        rw [if_neg hak, if_neg hak, ih (List.nodup_cons.mp hnd).2 hk0ks]

/-- `Map.set` on a fresh key appends it at the end. -/
theorem updateCell_map_of_not_mem (g : (ℚ × ℚ) → CellAcc) (w : CellAcc)
    (ks : List (ℚ × ℚ)) (k0 : ℚ × ℚ) (hmem : k0 ∉ ks) :
    updateCell (ks.map fun k => (k, g k)) k0 w
      = (ks.map fun k => (k, g k)) ++ [(k0, w)] := by
  induction ks with
  | nil => rfl
  | cons a ks ih =>
      rw [List.map_cons]
      unfold updateCell
      have hak : a ≠ k0 := fun h => hmem (h ▸ List.mem_cons_self a ks)
      rw [if_neg hak, ih fun h => hmem (List.mem_cons_of_mem a h),
        List.cons_append]

theorem insertRow_none (cs : ℚ) (cells : List ((ℚ × ℚ) × CellAcc)) (r : Row)
    (h : acceptedKey cs r = none) : insertRow cs cells r = cells := by
  unfold insertRow
  rw [h]

theorem insertRow_some (cs : ℚ) (cells : List ((ℚ × ℚ) × CellAcc)) (r : Row)
    (k : ℚ × ℚ) (h : acceptedKey cs r = some k) :
    insertRow cs cells r = updateCell cells k (rowContrib r) := by
  unfold insertRow
  rw [h]

/-- The loop of `aggregateByGrid` builds exactly the association list that
maps every key (in first-occurrence order) to the total accumulator of its
members. -/
theorem agg_fold_eq (cs : ℚ) (rows : List Row) :
    rows.foldl (insertRow cs) []
      = (gridKeys cs rows).map fun k => (k, cellSums cs rows k) := by
  induction rows using List.reverseRecOn with
  | nil => rfl
  | append_singleton rows r ih =>
      rw [List.foldl_concat, ih]
      cases hk : acceptedKey cs r with
      | none =>
          rw [insertRow_none cs _ r hk]
          have hkeys : gridKeys cs (rows ++ [r]) = gridKeys cs rows := by
            unfold gridKeys
            rw [List.filterMap_append]
            simp [hk]
          rw [hkeys]
          apply List.map_congr_left
          intro k _
          rw [cellSums_concat, if_neg (by simp [hk])]
      | some k0 =>
          rw [insertRow_some cs _ r k0 hk]
          by_cases hmem : k0 ∈ rows.filterMap (acceptedKey cs)
          · have hkeys : gridKeys cs (rows ++ [r]) = gridKeys cs rows := by
              unfold gridKeys
              rw [List.filterMap_append]
              simp [hk, firstDedup_concat, hmem]
            have hnd : (gridKeys cs rows).Nodup := nodup_firstDedup _
            have hmem2 : k0 ∈ gridKeys cs rows :=
              (mem_firstDedup _ _).mpr hmem
            rw [updateCell_map_of_mem (fun k => cellSums cs rows k)
              (rowContrib r) (gridKeys cs rows) k0 hnd hmem2, hkeys]
            apply List.map_congr_left
            intro k _
            rw [cellSums_concat]
            by_cases hkk : k = k0
            · rw [if_pos hkk, if_pos (by rw [hk, hkk])]
            · rw [if_neg hkk,
                if_neg (by rw [hk]
                           exact fun h => hkk (Option.some_injective _ h).symm)]
          · have hkeys : gridKeys cs (rows ++ [r]) = gridKeys cs rows ++ [k0] := by
              unfold gridKeys
              rw [List.filterMap_append]
              simp [hk, firstDedup_concat, hmem]
            have hmem2 : k0 ∉ gridKeys cs rows :=
              fun h => hmem ((mem_firstDedup _ _).mp h)
            rw [updateCell_map_of_not_mem (fun k => cellSums cs rows k)
              (rowContrib r) (gridKeys cs rows) k0 hmem2, hkeys,
              List.map_append]
            congr 1
            · apply List.map_congr_left
              intro k hkmem
              have hkne : k ≠ k0 := fun h =>
                hmem (h ▸ (mem_firstDedup _ _).mp hkmem)
              rw [cellSums_concat,
                if_neg (by rw [hk]
                           exact fun h => hkne (Option.some_injective _ h).symm)]
            · show [(k0, rowContrib r)] = [(k0, cellSums cs (rows ++ [r]) k0)]
              rw [cellSums_concat, if_pos hk,
                cellSums_of_not_mem cs rows k0 hmem, zero_addCell]

/-- `aggregateByGrid` emits, in first-occurrence key order, one cell per
distinct key: the centroid quotient and clamped weight sum of that key's
accumulated member contributions. -/
theorem aggregateByGrid_eq (rows : List Row) (cs : ℚ) :
    aggregateByGrid rows cs
      = (gridKeys cs rows).map fun k => emitCell (cellSums cs rows k) := by
  unfold aggregateByGrid
  rw [agg_fold_eq, List.map_map]
  rfl

theorem mem_membersOf (cs : ℚ) (rows : List Row) (k : ℚ × ℚ) (r : Row) :
    r ∈ membersOf cs rows k ↔ r ∈ rows ∧ acceptedKey cs r = some k := by
  unfold membersOf
  rw [List.mem_filter]
  simp

/-- The weight sum of a cell is the sum of its members' point
intensities. -/
theorem cellSums_weightSum (cs : ℚ) (rows : List Row) (k : ℚ × ℚ) :
    (cellSums cs rows k).weightSum
      = ((membersOf cs rows k).map aggPointIntensity).sum := by
  unfold cellSums
  dsimp only
  congr 1
  apply List.map_congr_left
  intro r hr
  rcases rowContrib_of_acceptedKey cs k r ((mem_membersOf cs rows k r).mp hr).2
    with ⟨lat, lng, _, _, hc⟩
  rw [hc]

/-- The accumulated latitude sum of a cell is the sum of its members' raw
latitudes weighted by their point intensities. -/
theorem cellSums_latSum (cs : ℚ) (rows : List Row) (k : ℚ × ℚ) :
    (cellSums cs rows k).latSum
      = ((membersOf cs rows k).map fun r =>
          (((latOf r).getD 0 : ℚ) : ℝ) * aggPointIntensity r).sum := by
  unfold cellSums
  dsimp only
  congr 1
  apply List.map_congr_left
  intro r hr
  rcases rowContrib_of_acceptedKey cs k r ((mem_membersOf cs rows k r).mp hr).2
    with ⟨lat, lng, hlat, _, hc⟩
  rw [hc, hlat]
  rfl

/-- The accumulated longitude sum of a cell is the sum of its members' raw
longitudes weighted by their point intensities. -/
theorem cellSums_lngSum (cs : ℚ) (rows : List Row) (k : ℚ × ℚ) :
    (cellSums cs rows k).lngSum
      = ((membersOf cs rows k).map fun r =>
          (((lngOf r).getD 0 : ℚ) : ℝ) * aggPointIntensity r).sum := by
  unfold cellSums
  dsimp only
  congr 1
  apply List.map_congr_left
  intro r hr
  rcases rowContrib_of_acceptedKey cs k r ((mem_membersOf cs rows k r).mp hr).2
    with ⟨lat, lng, _, hlng, hc⟩
  rw [hc, hlng]
  rfl

theorem aggPointIntensity_bounds (r : Row) :
    0.01 ≤ aggPointIntensity r ∧ aggPointIntensity r ≤ 4 := by
  rw [aggPointIntensity_eq]
  exact intensity_bounds r

/-- Every key `aggregateByGrid` emits has at least one member. -/
theorem membersOf_ne_nil (cs : ℚ) (rows : List Row) (k : ℚ × ℚ)
    (h : k ∈ gridKeys cs rows) : membersOf cs rows k ≠ [] := by
  rcases List.mem_filterMap.mp ((mem_firstDedup _ _).mp h) with ⟨r, hr, hk⟩
  intro hnil
  have hmem : r ∈ membersOf cs rows k := (mem_membersOf cs rows k r).mpr ⟨hr, hk⟩
  rw [hnil] at hmem
  exact List.not_mem_nil r hmem

/-- The weight sum of every emitted cell is at least `0.01`, in particular
strictly positive (the centroid division is well-defined). -/
theorem cellSums_weightSum_ge (cs : ℚ) (rows : List Row) (k : ℚ × ℚ)
    (h : k ∈ gridKeys cs rows) : 0.01 ≤ (cellSums cs rows k).weightSum := by
  rw [cellSums_weightSum]
  rcases List.exists_mem_of_ne_nil _ (membersOf_ne_nil cs rows k h) with ⟨r, hr⟩
  calc (0.01 : ℝ) ≤ aggPointIntensity r := (aggPointIntensity_bounds r).1
    _ ≤ ((membersOf cs rows k).map aggPointIntensity).sum := by
        apply List.single_le_sum
        · intro x hx
          rcases List.mem_map.mp hx with ⟨r2, _, hr2⟩
          exact le_trans (by norm_num) (hr2 ▸ (aggPointIntensity_bounds r2).1)
        · exact List.mem_map_of_mem aggPointIntensity hr

/-- C2: for every input collection and cell size, `aggregateByGrid` emits
one cell per distinct grid key, each cell's member weight sum (the sum of
its members' point intensities) is strictly positive, its centroid is the
point-intensity-weighted mean of its members' raw coordinates, and its
intensity is `min(4.0, Σ member point intensities)`. -/
theorem c2_cell_centroid_and_intensity (rows : List Row) (cs : ℚ) :
    (∀ k ∈ gridKeys cs rows,
      0 < ((membersOf cs rows k).map aggPointIntensity).sum) ∧
    aggregateByGrid rows cs = (gridKeys cs rows).map fun k =>
      ⟨((membersOf cs rows k).map fun r =>
          (((latOf r).getD 0 : ℚ) : ℝ) * aggPointIntensity r).sum
        / ((membersOf cs rows k).map aggPointIntensity).sum,
       ((membersOf cs rows k).map fun r =>
          (((lngOf r).getD 0 : ℚ) : ℝ) * aggPointIntensity r).sum
        / ((membersOf cs rows k).map aggPointIntensity).sum,
       min 4 ((membersOf cs rows k).map aggPointIntensity).sum,
       (membersOf cs rows k).length⟩ := by
  constructor
  · intro k hk
    calc (0 : ℝ) < 0.01 := by norm_num
      _ ≤ (cellSums cs rows k).weightSum := cellSums_weightSum_ge cs rows k hk
      _ = _ := cellSums_weightSum cs rows k
  · rw [aggregateByGrid_eq]
    apply List.map_congr_left
    intro k hk
    unfold emitCell MAX_INTENSITY_CLAMP
    rw [cellSums_weightSum, cellSums_latSum, cellSums_lngSum]
    rfl

/-- Witness for C2 at the two-sample list `[rowA, rowB]` with unit cell
size: the (single) emitted key has strictly positive member weight sum. -/
theorem c2_witness :
    0 < ((membersOf 1 [rowA, rowB] (cellKey 1 13 77)).map
      aggPointIntensity).sum :=
  (c2_cell_centroid_and_intensity [rowA, rowB] 1).1 (cellKey 1 13 77)
    ((mem_firstDedup _ _).mpr
      (List.mem_filterMap.mpr ⟨rowA, List.mem_cons_self _ _, rfl⟩))

/-- C3: the intensity of every heat entry the scorer emits and of every
cell the aggregator emits is within `[0.01, 4.0]` — never negative, never
above the clamp, for arbitrary scores and sample counts. -/
theorem c3_intensity_always_clamped :
    (∀ r e, pointToHeatEntry r = some e → 0.01 ≤ e.intensity ∧ e.intensity ≤ 4) ∧
    (∀ rows cs c, c ∈ aggregateByGrid rows cs →
      0.01 ≤ c.intensity ∧ c.intensity ≤ 4) := by
  constructor
  · intro r e he
    have hei : e.intensity = intensity r := by
      unfold pointToHeatEntry at he
      rcases hlat : latOf r with _ | lat <;> rw [hlat] at he
      · exact absurd he (by simp)
      rcases hlng : lngOf r with _ | lng <;> rw [hlng] at he
      · exact absurd he (by simp)
      cases he
      rfl
    rw [hei]
    exact intensity_bounds r
  · intro rows cs c hc
    rw [aggregateByGrid_eq] at hc
    rcases List.mem_map.mp hc with ⟨k, hk, rfl⟩
    have hW := cellSums_weightSum_ge cs rows k hk
    unfold emitCell MAX_INTENSITY_CLAMP
    constructor
    · exact le_min (by norm_num) hW
    · exact min_le_left _ _

/-- Witness for C3 at the accepted sample `rowA` and the singleton
aggregation `[rowA]` with unit cell size. -/
theorem c3_witness :
    (0.01 ≤ intensity rowA ∧ intensity rowA ≤ 4) ∧
    (0.01 ≤ (emitCell (cellSums 1 [rowA] (cellKey 1 13 77))).intensity ∧
      (emitCell (cellSums 1 [rowA] (cellKey 1 13 77))).intensity ≤ 4) := by
  constructor
  · exact c3_intensity_always_clamped.1 rowA
      ⟨13, 77, intensity rowA, rowA.score, effSamples rowA,
        rowA.confidence <|> rowA.confidence_numeric⟩ rfl
  · refine c3_intensity_always_clamped.2 [rowA] 1
      (emitCell (cellSums 1 [rowA] (cellKey 1 13 77))) ?_
    rw [aggregateByGrid_eq]
    exact List.mem_map.mpr ⟨cellKey 1 13 77,
      (mem_firstDedup _ _).mpr
        (List.mem_filterMap.mpr ⟨rowA, List.mem_cons_self _ _, rfl⟩), rfl⟩

theorem membersOf_append (cs : ℚ) (l1 l2 : List Row) (k : ℚ × ℚ) :
    membersOf cs (l1 ++ l2) k = membersOf cs l1 k ++ membersOf cs l2 k := by
  unfold membersOf
  rw [List.filter_append]

/-- C5: aggregation is mergeable and order-independent — the per-key cell
sums of a concatenation are the componentwise `addCell`-merge of the
per-key sums of the parts, and permuting the input rows leaves the emitted
multiset of cells unchanged. -/
theorem c5_aggregation_merge_and_order_independent :
    (∀ (cs : ℚ) (k : ℚ × ℚ) (l1 l2 : List Row),
      cellSums cs (l1 ++ l2) k
        = addCell (cellSums cs l1 k) (cellSums cs l2 k)) ∧
    (∀ (cs : ℚ) (l1 l2 : List Row), l1.Perm l2 →
      (aggregateByGrid l1 cs : Multiset AggCell)
        = (aggregateByGrid l2 cs : Multiset AggCell)) := by
  constructor
  · intro cs k l1 l2
    unfold cellSums
    rw [membersOf_append]
    simp [addCell]
  · intro cs l1 l2 hperm
    rw [aggregateByGrid_eq, aggregateByGrid_eq]
    have hsums : ∀ k, cellSums cs l1 k = cellSums cs l2 k := by
      intro k
      have hm : (membersOf cs l1 k).Perm (membersOf cs l2 k) :=
        hperm.filter _
      unfold cellSums
      rw [(hm.map fun r => (rowContrib r).latSum).sum_eq,
        (hm.map fun r => (rowContrib r).lngSum).sum_eq,
        (hm.map fun r => (rowContrib r).weightSum).sum_eq,
        hm.length_eq]
    have hkeys : (gridKeys cs l1).Perm (gridKeys cs l2) := by
      apply (List.perm_ext_iff_of_nodup (nodup_firstDedup _)
        (nodup_firstDedup _)).mpr
      intro k
      rw [mem_firstDedup, mem_firstDedup]
      exact (hperm.filterMap (acceptedKey cs)).mem_iff
    have hmapeq : (gridKeys cs l1).map (fun k => emitCell (cellSums cs l1 k))
        = (gridKeys cs l1).map fun k => emitCell (cellSums cs l2 k) :=
      List.map_congr_left fun k _ => congrArg emitCell (hsums k)
    rw [hmapeq]
    exact Multiset.coe_eq_coe.mpr
      (hkeys.map fun k => emitCell (cellSums cs l2 k))

/-- Witness for C5's permutation part at the concrete swap
`[rowA, rowB] ~ [rowB, rowA]` with unit cell size. -/
theorem c5_witness :
    (aggregateByGrid [rowA, rowB] 1 : Multiset AggCell)
      = (aggregateByGrid [rowB, rowA] 1 : Multiset AggCell) :=
  c5_aggregation_merge_and_order_independent.2 1 [rowA, rowB] [rowB, rowA]
    (List.Perm.swap rowB rowA [])

/-- The unaggregated heat array is the `filterMap` of the per-row triple
(both guard branches of lines 228 and 230 agree with it). -/
theorem buildHeatArrayFromRows_some (rows : List Row) :
    buildHeatArrayFromRows (some rows) = rows.filterMap heatTriple := by
  cases rows with
  | nil => rfl
  | cons a l => rfl

/-- C8: a row whose latitude or longitude is missing or does not convert to
a finite number is silently excluded from the scorer's output and from the
aggregator's cells, without disturbing the rest of the batch (all functions
are total — there is no exception path). -/
theorem c8_malformed_row_excluded (r : Row)
    (h : latOf r = none ∨ lngOf r = none) :
    pointToHeatEntry r = none ∧
    (∀ (cs : ℚ) (pre post : List Row),
      aggregateByGrid (pre ++ r :: post) cs
        = aggregateByGrid (pre ++ post) cs) ∧
    (∀ pre post : List Row,
      buildHeatArrayFromRows (some (pre ++ r :: post))
        = buildHeatArrayFromRows (some (pre ++ post))) := by
  have hpt : pointToHeatEntry r = none := by
    rcases h with h | h
    · simp [pointToHeatEntry, h]
    · rcases hlat : latOf r with _ | lat <;> simp [pointToHeatEntry, hlat, h]
  have hkey : ∀ cs : ℚ, acceptedKey cs r = none := by
    intro cs
    rcases h with h | h
    · simp [acceptedKey, h]
    · rcases hlat : latOf r with _ | lat <;> simp [acceptedKey, hlat, h]
  have hht : heatTriple r = none := by
    unfold heatTriple
    rw [hpt]
    rfl
  refine ⟨hpt, ?_, ?_⟩
  · intro cs pre post
    unfold aggregateByGrid
    rw [List.foldl_append, List.foldl_cons, insertRow_none cs _ r (hkey cs),
      ← List.foldl_append]
  · intro pre post
    rw [buildHeatArrayFromRows_some, buildHeatArrayFromRows_some,
      List.filterMap_append, List.filterMap_append, List.filterMap_cons, hht]

/-- Witness for C8 at the spec's malformed sample `{lat: "x", lng: 12.9}`
inserted in front of the well-formed `rowA`. -/
theorem c8_witness :
    (latOf rowBad = none ∨ lngOf rowBad = none) ∧
    pointToHeatEntry rowBad = none ∧
    aggregateByGrid [rowBad, rowA] 1 = aggregateByGrid [rowA] 1 ∧
    buildHeatArrayFromRows (some [rowBad, rowA])
      = buildHeatArrayFromRows (some [rowA]) :=
  have h := c8_malformed_row_excluded rowBad (Or.inl rfl)
  ⟨Or.inl rfl, h.1, h.2.1 1 [] [rowA], h.2.2 [] [rowA]⟩

/-! ## Debounce scheduler -/

/-- Within a burst (every event arrives before the pending deadline), no
intermediate timer fires: the fold just moves the deadline along. -/
theorem foldDebounce_within (delay : ℚ) (ts : List ℚ) :
    ∀ (t0 : ℚ) (n : ℕ),
      List.Chain' (fun a b => b < a + delay) (t0 :: ts) →
      ts.foldl (fun s t => onMoveEnd delay t s) ⟨some (t0 + delay), n⟩
        = ⟨some (ts.getLastD t0 + delay), n⟩ := by
  induction ts with
  | nil => intro t0 n _; rfl
  | cons t1 ts ih =>
      intro t0 n hch
      rcases List.chain'_cons.mp hch with ⟨h01, hch1⟩
      rw [List.foldl_cons]
      have hstep : onMoveEnd delay t1 ⟨some (t0 + delay), n⟩
          = ⟨some (t1 + delay), n⟩ := by
        simp [onMoveEnd, if_neg (not_le.mpr h01)]
      rw [hstep, ih t1 n hch1, List.getLastD_cons]

/-- When every event arrives after the pending deadline, each event first
lets the pending timer fire: the fold counts one fetch per event. -/
theorem foldDebounce_spaced (delay : ℚ) (ts : List ℚ) :
    ∀ (t0 : ℚ) (n : ℕ),
      List.Chain' (fun a b => a + delay < b) (t0 :: ts) →
      ts.foldl (fun s t => onMoveEnd delay t s) ⟨some (t0 + delay), n⟩
        = ⟨some (ts.getLastD t0 + delay), n + ts.length⟩ := by
  induction ts with
  | nil => intro t0 n _; rfl
  | cons t1 ts ih =>
      intro t0 n hch
      rcases List.chain'_cons.mp hch with ⟨h01, hch1⟩
      rw [List.foldl_cons]
      have hstep : onMoveEnd delay t1 ⟨some (t0 + delay), n⟩
          = ⟨some (t1 + delay), n + 1⟩ := by
        simp [onMoveEnd, if_pos (le_of_lt h01)]
      rw [hstep, ih t1 (n + 1) hch1, List.length_cons, List.getLastD_cons]
      have hn : n + 1 + ts.length = n + (ts.length + 1) := by omega
      rw [hn]

/-- C9: a burst of `moveend` events all landing inside the running 300 ms
debounce window issues exactly one fetch (each event cancels the pending
timer and re-arms it; only the last survives to fire), while events spaced
beyond the window issue exactly one fetch each. -/
theorem c9_debounce_collapses_bursts (delay : ℚ) (times : List ℚ) :
    (times ≠ [] → times.Chain' (fun a b => b < a + delay) →
      fetchCount delay times = 1) ∧
    (times.Chain' (fun a b => a + delay < b) →
      fetchCount delay times = times.length) := by
  cases times with
  | nil =>
      exact ⟨fun h _ => absurd rfl h, fun _ => rfl⟩
  | cons t0 ts =>
      constructor
      · intro _ hch
        unfold fetchCount
        rw [List.foldl_cons]
        have hfirst : onMoveEnd delay t0 ⟨none, 0⟩ = ⟨some (t0 + delay), 0⟩ := rfl
        rw [hfirst, foldDebounce_within delay ts t0 0 hch]
        rfl
      · intro hch
        unfold fetchCount
        rw [List.foldl_cons]
        have hfirst : onMoveEnd delay t0 ⟨none, 0⟩ = ⟨some (t0 + delay), 0⟩ := rfl
        rw [hfirst, foldDebounce_spaced delay ts t0 0 hch]
        show 0 + ts.length + 1 = ts.length + 1
        omega

/-- Witness for C9: three events 100 ms and 150 ms apart collapse to one
fetch; three events 400 ms apart produce three fetches
(debounce delay 300 ms). -/
theorem c9_witness :
    fetchCount DEBOUNCE_MS [0, 100, 250] = 1 ∧
    fetchCount DEBOUNCE_MS [0, 400, 800] = 3 :=
  ⟨(c9_debounce_collapses_bursts DEBOUNCE_MS [0, 100, 250]).1 (by decide)
      (by norm_num [List.chain'_cons, DEBOUNCE_MS]),
   (c9_debounce_collapses_bursts DEBOUNCE_MS [0, 400, 800]).2
      (by norm_num [List.chain'_cons, DEBOUNCE_MS])⟩

/-! ## CSV round trip -/

theorem charToDigit_digitChar (d : ℕ) (hd : d < 10) :
    charToDigit (Nat.digitChar d) = some d := by
  interval_cases d <;> decide

theorem digitChar_not_special {d : ℕ} (hd : d < 10) :
    Nat.digitChar d ≠ ',' ∧ Nat.digitChar d ≠ '\n' ∧
      Nat.digitChar d ≠ '/' ∧ Nat.digitChar d ≠ '-' := by
  interval_cases d <;> exact ⟨by decide, by decide, by decide, by decide⟩

theorem natChars_ne_nil (n : ℕ) : natChars n ≠ [] := by
  unfold natChars
  by_cases h : n = 0
  · simp [h]
  · rw [if_neg h]
    simp [Nat.digits_ne_nil_iff_ne_zero.mpr h]

theorem mem_natChars (n : ℕ) (c : Char) (hc : c ∈ natChars n) :
    ∃ d, d < 10 ∧ c = Nat.digitChar d := by
  unfold natChars at hc
  by_cases h : n = 0
  · rw [if_pos h] at hc
    rw [List.mem_singleton] at hc
    exact ⟨0, by norm_num, hc⟩
  · rw [if_neg h, List.mem_reverse] at hc
    rcases List.mem_map.mp hc with ⟨d, hd, rfl⟩
    exact ⟨d, Nat.digits_lt_base (by norm_num) hd, rfl⟩

theorem some_bind {α β : Type} (a : α) (f : α → Option β) :
    (some a).bind f = f a := rfl

theorem digitStep_some (a : ℕ) {d : ℕ} (hd : d < 10) :
    digitStep (some a) (Nat.digitChar d) = some (a * 10 + d) := by
  unfold digitStep
  rw [some_bind, charToDigit_digitChar d hd]
  rfl

theorem foldl_digitStep (ds : List ℕ) :
    ∀ a : ℕ, (∀ d ∈ ds, d < 10) →
      (ds.map Nat.digitChar).foldl digitStep (some a)
        = some (ds.foldl (fun x d => x * 10 + d) a) := by
  induction ds with
  | nil => intro a _; rfl
  | cons d ds ih =>
      intro a hall
      rw [List.map_cons, List.foldl_cons, List.foldl_cons,
        digitStep_some a (hall d (List.mem_cons_self d ds))]
      exact ih (a * 10 + d) fun e he => hall e (List.mem_cons_of_mem d he)

theorem foldl_mul_add (l : List ℕ) :
    ∀ a : ℕ, l.foldl (fun x d => x * 10 + d) a
      = a * 10 ^ l.length + Nat.ofDigits 10 l.reverse := by
  induction l with
  | nil => intro a; simp
  | cons d t ih =>
      intro a
      rw [List.foldl_cons, ih (a * 10 + d), List.reverse_cons,
        Nat.ofDigits_append, List.length_cons, List.length_reverse]
      simp [Nat.ofDigits_singleton, pow_succ]
      ring

theorem charsToNat_of_ne_nil (l : List Char) (h : l ≠ []) :
    charsToNat l = l.foldl digitStep (some 0) := by
  cases l with
  | nil => exact absurd rfl h
  | cons c cs => rfl

theorem charsToNat_natChars (n : ℕ) : charsToNat (natChars n) = some n := by
  by_cases h : n = 0
  · subst h; decide
  · have hform : natChars n = ((Nat.digits 10 n).reverse).map Nat.digitChar := by
      unfold natChars
      rw [if_neg h, List.map_reverse]
    rw [charsToNat_of_ne_nil _ (natChars_ne_nil n), hform,
      foldl_digitStep _ 0 (by
        intro d hd
        rw [List.mem_reverse] at hd
        exact Nat.digits_lt_base (by norm_num) hd),
      foldl_mul_add]
    simp [Nat.ofDigits_digits]

theorem intChars_ne_nil (i : ℤ) : intChars i ≠ [] := by
  unfold intChars
  by_cases h : i < 0
  · simp [h]
  · rw [if_neg h]
    exact natChars_ne_nil i.natAbs

theorem mem_intChars (i : ℤ) (c : Char) (hc : c ∈ intChars i) :
    c = '-' ∨ ∃ d, d < 10 ∧ c = Nat.digitChar d := by
  unfold intChars at hc
  by_cases h : i < 0
  · rw [if_pos h] at hc
    rcases List.mem_cons.mp hc with rfl | hc
    · exact Or.inl rfl
    · exact Or.inr (mem_natChars _ c hc)
  · rw [if_neg h] at hc
    exact Or.inr (mem_natChars _ c hc)

theorem parseInt_intChars (i : ℤ) : parseInt (intChars i) = some i := by
  unfold intChars
  by_cases h : i < 0
  · rw [if_pos h]
    show parseInt ('-' :: natChars i.natAbs) = some i
    unfold parseInt
    dsimp only
    rw [if_pos rfl, charsToNat_natChars]
    simp [Int.ofNat_natAbs_of_nonpos (le_of_lt h)]
  · rw [if_neg h]
    have hne := natChars_ne_nil i.natAbs
    rcases List.exists_cons_of_ne_nil hne with ⟨c, cs, hcc⟩
    rcases mem_natChars i.natAbs c (hcc ▸ List.mem_cons_self c cs)
      with ⟨d, hd, rfl⟩
    rw [hcc]
    show parseInt (Nat.digitChar d :: cs) = some i
    unfold parseInt
    dsimp only
    rw [if_neg (digitChar_not_special hd).2.2.2, ← hcc, charsToNat_natChars]
    simp [Int.natAbs_of_nonneg (not_lt.mp h)]

theorem splitSep_ne_nil (sep : Char) (l : List Char) : splitSep sep l ≠ [] := by
  cases l with
  | nil => simp [splitSep]
  | cons c cs =>
      unfold splitSep
      rcases splitSep sep cs with _ | ⟨g, gs⟩
      · simp
      · by_cases hc : c = sep <;> simp [hc]

theorem splitSep_of_not_mem (sep : Char) (g : List Char) (h : sep ∉ g) :
    splitSep sep g = [g] := by
  induction g with
  | nil => rfl
  | cons c cs ih =>
      have hcs : sep ∉ cs := fun hx => h (List.mem_cons_of_mem c hx)
      have hc : c ≠ sep := fun hx => h (hx ▸ List.mem_cons_self c cs)
      unfold splitSep
      rw [ih hcs]
      simp [hc]

theorem splitSep_append (sep : Char) (g rest : List Char) (h : sep ∉ g) :
    splitSep sep (g ++ sep :: rest) = g :: splitSep sep rest := by
  induction g with
  | nil =>
      show splitSep sep (sep :: rest) = [] :: splitSep sep rest
      rcases hs : splitSep sep rest with _ | ⟨g0, gs⟩
      · exact absurd hs (splitSep_ne_nil sep rest)
      · conv_lhs => rw [splitSep, hs]
        simp
  | cons c cs ih =>
      have hcs : sep ∉ cs := fun hx => h (List.mem_cons_of_mem c hx)
      have hc : c ≠ sep := fun hx => h (hx ▸ List.mem_cons_self c cs)
      rw [List.cons_append]
      conv_lhs => rw [splitSep, ih hcs]
      simp [hc]

theorem splitSep_joinSep (sep : Char) (gs : List (List Char)) (hne : gs ≠ [])
    (h : ∀ g ∈ gs, sep ∉ g) : splitSep sep (joinSep sep gs) = gs := by
  induction gs with
  | nil => exact absurd rfl hne
  | cons g gs ih =>
      cases gs with
      | nil =>
          show splitSep sep g = [g]
          exact splitSep_of_not_mem sep g (h g (List.mem_cons_self g []))
      | cons g2 gs2 =>
          show splitSep sep (g ++ sep :: joinSep sep (g2 :: gs2)) = g :: g2 :: gs2
          rw [splitSep_append sep g _ (h g (List.mem_cons_self g _)),
            ih (List.cons_ne_nil g2 gs2)
              fun x hx => h x (List.mem_cons_of_mem g hx)]

theorem mem_joinSep (sep : Char) (gs : List (List Char)) (c : Char)
    (hc : c ∈ joinSep sep gs) : c = sep ∨ ∃ g ∈ gs, c ∈ g := by
  induction gs with
  | nil => cases hc
  | cons g gs ih =>
      cases gs with
      | nil => exact Or.inr ⟨g, List.mem_cons_self g [], hc⟩
      | cons g2 gs2 =>
          rcases List.mem_append.mp hc with h | h
          · exact Or.inr ⟨g, List.mem_cons_self g _, h⟩
          · rcases List.mem_cons.mp h with rfl | h
            · exact Or.inl rfl
            · rcases ih h with h | ⟨g3, hg3, hcg3⟩
              · exact Or.inl h
              · exact Or.inr ⟨g3, List.mem_cons_of_mem g hg3, hcg3⟩

theorem mem_ratChars (q : ℚ) (c : Char) (hc : c ∈ ratChars q) :
    c = '-' ∨ c = '/' ∨ ∃ d, d < 10 ∧ c = Nat.digitChar d := by
  unfold ratChars at hc
  rcases List.mem_append.mp hc with h | h
  · rcases mem_intChars q.num c h with h | h
    · exact Or.inl h
    · exact Or.inr (Or.inr h)
  · rcases List.mem_cons.mp h with rfl | h
    · exact Or.inr (Or.inl rfl)
    · exact Or.inr (Or.inr (mem_natChars _ c h))

theorem comma_not_mem_ratChars (q : ℚ) : ',' ∉ ratChars q := by
  intro hc
  rcases mem_ratChars q ',' hc with h | h | ⟨d, hd, hdc⟩
  · exact absurd h (by decide)
  · exact absurd h (by decide)
  · exact absurd hdc.symm (digitChar_not_special hd).1

theorem newline_not_mem_ratChars (q : ℚ) : '\n' ∉ ratChars q := by
  intro hc
  rcases mem_ratChars q '\n' hc with h | h | ⟨d, hd, hdc⟩
  · exact absurd h (by decide)
  · exact absurd h (by decide)
  · exact absurd hdc.symm (digitChar_not_special hd).2.1

theorem comma_not_mem_fieldChars (x : Option ℚ) : ',' ∉ fieldChars x := by
  cases x with
  | none => exact List.not_mem_nil _
  | some q => exact comma_not_mem_ratChars q

theorem newline_not_mem_fieldChars (x : Option ℚ) : '\n' ∉ fieldChars x := by
  cases x with
  | none => exact List.not_mem_nil _
  | some q => exact newline_not_mem_ratChars q

theorem comma_not_mem_jvalChars (v : Option JVal) : ',' ∉ jvalChars v := by
  cases v with
  | none => exact List.not_mem_nil _
  | some j =>
      cases j with
      | num q => exact comma_not_mem_ratChars q
      | nonnum => decide

theorem newline_not_mem_jvalChars (v : Option JVal) : '\n' ∉ jvalChars v := by
  cases v with
  | none => exact List.not_mem_nil _
  | some j =>
      cases j with
      | num q => exact newline_not_mem_ratChars q
      | nonnum => decide

theorem ratChars_ne_nil (q : ℚ) : ratChars q ≠ [] := by
  unfold ratChars
  simp

theorem parseRat_ratChars (q : ℚ) : parseRat (ratChars q) = some q := by
  unfold parseRat ratChars
  have h1 : '/' ∉ intChars q.num := by
    intro hc
    rcases mem_intChars q.num '/' hc with h | ⟨d, hd, hdc⟩
    · exact absurd h (by decide)
    · exact absurd hdc.symm (digitChar_not_special hd).2.2.1
  have h2 : '/' ∉ natChars q.den := by
    intro hc
    rcases mem_natChars q.den '/' hc with ⟨d, hd, hdc⟩
    exact absurd hdc.symm (digitChar_not_special hd).2.2.1
  rw [splitSep_append '/' _ _ h1, splitSep_of_not_mem '/' _ h2]
  dsimp only
  rw [parseInt_intChars, some_bind, charsToNat_natChars]
  simp [Rat.num_div_den]

theorem parseField_fieldChars (x : Option ℚ) :
    parseField (fieldChars x) = some x := by
  cases x with
  | none => rfl
  | some q =>
      show parseField (ratChars q) = some (some q)
      rcases List.exists_cons_of_ne_nil (ratChars_ne_nil q) with ⟨c, cs, hcc⟩
      rw [hcc]
      show (parseRat (c :: cs)).map some = some (some q)
      rw [← hcc, parseRat_ratChars]
      rfl

theorem parseField_jvalChars (v : Option JVal) (h : v ≠ some JVal.nonnum) :
    parseField (jvalChars v) = some (finNum v) := by
  cases v with
  | none => rfl
  | some j =>
      cases j with
      | num q => exact parseField_fieldChars (some q)
      | nonnum => exact absurd rfl h

theorem parseRow_rowChars (p : Row) (h : numericRow p) :
    parseRow (rowChars p) = some (csvTuple p) := by
  unfold parseRow rowChars
  rw [splitSep_joinSep ',' _ (List.cons_ne_nil _ _) (by
    intro g hg
    simp only [List.mem_cons, List.not_mem_nil, or_false] at hg
    rcases hg with rfl | rfl | rfl | rfl | rfl
    · exact comma_not_mem_jvalChars p.lat
    · exact comma_not_mem_jvalChars p.lng
    · exact comma_not_mem_fieldChars p.score
    · exact comma_not_mem_fieldChars p.samples
    · exact comma_not_mem_fieldChars p.confidence)]
  dsimp only
  rw [parseField_jvalChars p.lat h.1, some_bind,
    parseField_jvalChars p.lng h.2, some_bind,
    parseField_fieldChars p.score, some_bind,
    parseField_fieldChars p.samples, some_bind,
    parseField_fieldChars p.confidence]
  rfl

theorem newline_not_mem_rowChars (p : Row) : '\n' ∉ rowChars p := by
  intro hc
  rcases mem_joinSep ',' _ '\n' hc with h | ⟨g, hg, hcg⟩
  · exact absurd h (by decide)
  · simp only [List.mem_cons, List.not_mem_nil, or_false] at hg
    rcases hg with rfl | rfl | rfl | rfl | rfl
    · exact newline_not_mem_jvalChars p.lat hcg
    · exact newline_not_mem_jvalChars p.lng hcg
    · exact newline_not_mem_fieldChars p.score hcg
    · exact newline_not_mem_fieldChars p.samples hcg
    · exact newline_not_mem_fieldChars p.confidence hcg

theorem mapM_parseRow (pts : List Row) (h : ∀ p ∈ pts, numericRow p) :
    (pts.map rowChars).mapM parseRow = some (pts.map csvTuple) := by
  induction pts with
  | nil => rfl
  | cons p pts ih =>
      rw [List.map_cons, List.map_cons, List.mapM_cons,
        parseRow_rowChars p (h p (List.mem_cons_self p pts)),
        ih fun x hx => h x (List.mem_cons_of_mem p hx)]
      rfl

/-- C4: serializing the currently-held point set with `pointsToCSV`
(header `lat,lng,score,samples,confidence`, one row per point, missing
values as the empty string) and parsing the CSV back yields exactly the
original sequence of `(lat, lng, score, samples, confidence)` tuples, for
every point set whose exported fields are numeric-or-missing. -/
theorem c4_csv_roundtrip (pts : List Row) (h : ∀ p ∈ pts, numericRow p) :
    parseCSV (pointsToCSV pts) = some (pts.map csvTuple) := by
  unfold parseCSV pointsToCSV
  rw [splitSep_joinSep '\n' _ (List.cons_ne_nil _ _) (by
    intro g hg
    rcases List.mem_cons.mp hg with rfl | hg
    · decide
    · rcases List.mem_map.mp hg with ⟨p, _, rfl⟩
      exact newline_not_mem_rowChars p)]
  dsimp only
  rw [if_pos rfl, mapM_parseRow pts h]

/-- Witness for C4 at the two-point set `[rowCSV, rowNullScore]`
(fractional latitude, missing score, negative confidence). -/
theorem c4_witness :
    parseCSV (pointsToCSV [rowCSV, rowNullScore])
      = some ([rowCSV, rowNullScore].map csvTuple) :=
  c4_csv_roundtrip [rowCSV, rowNullScore] (by decide)

end Sarthi
